import Mathlib

/-!
Shallow embedding of the 4ZeroBox ADC acquisition and signal-conditioning
subsystem (fourzerobox.py): the per-channel configuration stores, the linear
0-10V/4-20mA pipeline, the resistive lookup-table interpolator, the
current/power estimator, and lock-usage models of the read operations.
Numeric values are modelled as exact rationals, raw ADC codes as integers,
and sentinel parameters (None or any user-chosen object) as values of an
arbitrary type.  Fallible operations return Except (raised exceptions are
modelled as Except.error).
-/

namespace FourZeroBox

/-- ADC range/pga to reference-voltage table (VREF_ADS1015 in the source). -/
def VREF_ADS1015 : List ℚ := [6.144, 4.096, 2.048, 1.024, 0.512, 0.256, 0.256, 0.256]

/-- Per-channel ADC chip configuration: the PGA, SPS and VREF entries of one
element of the _adc_config / _adc_resistive_config / _adc_current_config lists. -/
structure AdcCfg where
  pga : ℕ
  sps : ℕ
  vref : ℚ
  deriving DecidableEq

/-- Conversion parameters stored by set_conversion_010_420 for one channel. -/
structure Conv010 (α : Type) where
  y_min : ℚ
  y_max : ℚ
  offset : ℚ
  under_x : α
  over_x : α
  deriving DecidableEq

/-- Conversion parameters stored by set_conversion_resistive for one channel. -/
structure ConvRes (α : Type) where
  v_min : ℚ
  ref_table : List ℚ
  delta : ℚ
  offset : ℚ
  out_of_range : α
  deriving DecidableEq

/-- Conversion parameters stored by set_conversion_current for one channel. -/
structure ConvCur where
  n_samples : ℕ
  ncoil : ℚ
  ratio : ℚ
  voltage : ℚ
  offset : ℚ
  deriving DecidableEq

/-- Model of _check_adc_config: pga and sps must both be valid indices 0..7
(ValueError otherwise). -/
def check_adc_config (pga sps : ℕ) : Except Unit Unit :=
  if pga ∈ [0, 1, 2, 3, 4, 5, 6, 7] then
    if sps ∈ [0, 1, 2, 3, 4, 5, 6, 7] then Except.ok ()
    else Except.error ()
  else Except.error ()

/-- config_adc_010_420: on channel ch (1..4), store pga, sps and the
reference voltage looked up from VREF_ADS1015 at index pga. -/
def config_adc_010_420 (cfgs : List AdcCfg) (ch pga sps : ℕ) :
    Except Unit (List AdcCfg) :=
  if ch ∈ [1, 2, 3, 4] then
    match check_adc_config pga sps with
    | Except.error e => Except.error e
    | Except.ok _ => Except.ok (cfgs.set (ch - 1) ⟨pga, sps, VREF_ADS1015.getD pga 0⟩)
  else Except.error ()

/-- config_adc_resistive: same body as config_adc_010_420, acting on the
resistive configuration list. -/
def config_adc_resistive (cfgs : List AdcCfg) (ch pga sps : ℕ) :
    Except Unit (List AdcCfg) :=
  if ch ∈ [1, 2, 3, 4] then
    match check_adc_config pga sps with
    | Except.error e => Except.error e
    | Except.ok _ => Except.ok (cfgs.set (ch - 1) ⟨pga, sps, VREF_ADS1015.getD pga 0⟩)
  else Except.error ()

/-- config_adc_current: channels 1..3 only. -/
def config_adc_current (cfgs : List AdcCfg) (ch pga sps : ℕ) :
    Except Unit (List AdcCfg) :=
  if ch ∈ [1, 2, 3] then
    match check_adc_config pga sps with
    | Except.error e => Except.error e
    | Except.ok _ => Except.ok (cfgs.set (ch - 1) ⟨pga, sps, VREF_ADS1015.getD pga 0⟩)
  else Except.error ()

/-- set_conversion_010_420: store the five linear conversion parameters for
channel ch (1..4); no validation beyond the channel number. -/
def set_conversion_010_420 {α : Type} (convs : List (Conv010 α)) (ch : ℕ)
    (y_min y_max offset : ℚ) (under_x over_x : α) :
    Except Unit (List (Conv010 α)) :=
  if ch ∈ [1, 2, 3, 4] then
    Except.ok (convs.set (ch - 1) ⟨y_min, y_max, offset, under_x, over_x⟩)
  else Except.error ()

/-- set_conversion_resistive: store the five resistive conversion parameters
for channel ch (1..4); the reference table is stored verbatim, unvalidated. -/
def set_conversion_resistive {α : Type} (convs : List (ConvRes α)) (ch : ℕ)
    (v_min : ℚ) (ref_table : List ℚ) (delta offset : ℚ) (out_of_range : α) :
    Except Unit (List (ConvRes α)) :=
  if ch ∈ [1, 2, 3, 4] then
    Except.ok (convs.set (ch - 1) ⟨v_min, ref_table, delta, offset, out_of_range⟩)
  else Except.error ()

/-- set_conversion_current: store the five current conversion parameters for
channel ch (1..3). -/
def set_conversion_current (convs : List ConvCur) (ch n_samples : ℕ)
    (ncoil ratio voltage offset : ℚ) : Except Unit (List ConvCur) :=
  if ch ∈ [1, 2, 3] then
    Except.ok (convs.set (ch - 1) ⟨n_samples, ncoil, ratio, voltage, offset⟩)
  else Except.error ()

/-- The default resistive conversion parameters installed for the four
channels by _init_adc_resistive: V_MIN 0, empty REF_TABLE, DELTA 0,
OFFSET 0, OUT_OF_RANGE None. -/
def init_adc_resistive_conversion : List (ConvRes (Option ℚ)) :=
  [⟨0, [], 0, 0, none⟩, ⟨0, [], 0, 0, none⟩, ⟨0, [], 0, 0, none⟩, ⟨0, [], 0, 0, none⟩]

/-- Model of _scale_010_420: threshold sentinels are returned verbatim (left
injection); otherwise the linear interpolation plus offset is returned. -/
def scale_010_420 {α : Type} (value x_min x_max y_min y_max offset : ℚ)
    (under_x over_x : α) : α ⊕ ℚ :=
  if value < x_min then Sum.inl under_x
  else if value > x_max then Sum.inl over_x
  else Sum.inr (y_min + (value - x_min) * (y_max - y_min) / (x_max - x_min) + offset)

/-- Model of _convert_420: raw code to milliamps through the ad8277 inverse gain and
the 124 ohm on-board sense resistor. -/
def convert_420 (raw vref : ℚ) : ℚ :=
  let G : ℚ := 5
  let R : ℚ := 124
  let V := raw / 2047 * vref * G
  let c := V / R
  c * 1000

/-- Model of _convert_010: raw code to volts through the ad8277 inverse gain. -/
def convert_010 (raw vref : ℚ) : ℚ :=
  let G : ℚ := 5
  raw / 2047 * vref * G

/-- Model of _convert_resistive: raw code to resistance against the 43 ohm pull-up
and the 3.3 V supply. -/
def convert_resistive (raw vref : ℚ) : ℚ :=
  let Rpu : ℚ := 43
  let Vdd : ℚ := 3.3
  let V := raw / 2047 * vref
  V * Rpu / (Vdd - V)

/-- Model of _convert_power: effective power from primary current, nominal voltage
and the 0.7071 RMS factor, plus the additive offset. -/
def convert_power (value voltage offset : ℚ) : ℚ :=
  value * voltage * 0.7071 + offset

/-- Model of _convert_current: peak-to-peak raw value to primary-side current. -/
def convert_current (raw vref ncoil ratio : ℚ) : ℚ :=
  let i_secondary := raw / 2 * vref / 2048 / 20
  let i_primary := ratio * i_secondary / ncoil
  i_primary

/-- The straight line through (x1, v_min + delta*i) and
(x2, v_min + delta*(i+1)) evaluated at value, exactly as computed in the
loop body of _scale_resistive (slope m and intercept q). -/
def lineAt (x1 x2 : ℚ) (i : ℕ) (v_min delta value : ℚ) : ℚ :=
  let y1 := v_min + delta * (i : ℚ)
  let y2 := v_min + delta * ((i : ℚ) + 1)
  let m := (y2 - y1) / (x2 - x1)
  let q := (x2 * y1 - x1 * y2) / (x2 - x1)
  m * value + q

/-- The scan loop of _scale_resistive over adjacent pairs of the (already
normalized) table, starting at loop index i: skip while value < table[i+1],
interpolate and break at the first index where value >= table[i+1], and
fall through to none (the for-else branch) when the pairs run out. -/
def resScan (value v_min delta : ℚ) : List ℚ → ℕ → Option ℚ
  | x1 :: x2 :: rest, i =>
    if value < x2 then resScan value v_min delta (x2 :: rest) (i + 1)
    else some (lineAt x1 x2 i v_min delta value)
  | _, _ => none

/-- The normalization prefix of _scale_resistive: reverse the table when its
first element is smaller than its last. -/
def resNormalize (t : List ℚ) : List ℚ :=
  if t.headD 0 < t.getLastD 0 then t.reverse else t

/-- Model of _scale_resistive.  Indexing ref_table[0] / ref_table[-1] on an empty
table raises (Except.error); otherwise normalize, return out_of_range
verbatim when value >= table[0], else run the pair scan, returning
out_of_range when no pair matched.  The offset parameter is accepted but
never used, as in the source. -/
def scale_resistive {α : Type} (value v_min : ℚ) (ref_table : List ℚ)
    (delta offset : ℚ) (out_of_range : α) : Except Unit (α ⊕ ℚ) :=
  if ref_table.isEmpty then Except.error ()
  else
    let t := resNormalize ref_table
    if value ≥ t.headD 0 then Except.ok (Sum.inl out_of_range)
    else
      match resScan value v_min delta t 0 with
      | some v => Except.ok (Sum.inr v)
      | none => Except.ok (Sum.inl out_of_range)

/-- Result of one of the read operations: the raw ADC code, a converted
number, or a sentinel returned verbatim. -/
inductive RVal (α : Type) where
  | rawv (z : ℤ)
  | num (q : ℚ)
  | sent (a : α)
  deriving DecidableEq

/-- Injects the output of a scaling stage into a read result. -/
def sumToRVal {α : Type} : α ⊕ ℚ → RVal α
  | Sum.inl a => RVal.sent a
  | Sum.inr q => RVal.num q

/-- read_010 given the raw code the chip produced: flag check, channel
check, then raw / electric / fully-converted output with the (0, 10)
physical range. -/
def read_010_m {α : Type} (ch : ℕ) (raw electric : Bool) (data : ℤ)
    (vref : ℚ) (conv : Conv010 α) : Except Unit (RVal α) :=
  if raw && electric then Except.error ()
  else if ch ∈ [1, 2, 3, 4] then
    if raw then Except.ok (RVal.rawv data)
    else
      let edata := convert_010 (data : ℚ) vref
      if electric then Except.ok (RVal.num edata)
      else Except.ok (sumToRVal (scale_010_420 edata 0 10 conv.y_min conv.y_max
        conv.offset conv.under_x conv.over_x))
  else Except.error ()

/-- read_420 given the raw code the chip produced: same shape as read_010
with the 4-20 mA conversion and the (4, 20) physical range. -/
def read_420_m {α : Type} (ch : ℕ) (raw electric : Bool) (data : ℤ)
    (vref : ℚ) (conv : Conv010 α) : Except Unit (RVal α) :=
  if raw && electric then Except.error ()
  else if ch ∈ [1, 2, 3, 4] then
    if raw then Except.ok (RVal.rawv data)
    else
      let edata := convert_420 (data : ℚ) vref
      if electric then Except.ok (RVal.num edata)
      else Except.ok (sumToRVal (scale_010_420 edata 4 20 conv.y_min conv.y_max
        conv.offset conv.under_x conv.over_x))
  else Except.error ()

/-- read_resistive given the raw code the chip produced; a failure of the
resistive scaler (empty table) propagates as an exception. -/
def read_resistive_m {α : Type} (ch : ℕ) (raw electric : Bool) (data : ℤ)
    (vref : ℚ) (conv : ConvRes α) : Except Unit (RVal α) :=
  if raw && electric then Except.error ()
  else if ch ∈ [1, 2, 3, 4] then
    if raw then Except.ok (RVal.rawv data)
    else
      let edata := convert_resistive (data : ℚ) vref
      if electric then Except.ok (RVal.num edata)
      else
        match scale_resistive edata conv.v_min conv.ref_table conv.delta
            conv.offset conv.out_of_range with
        | Except.error e => Except.error e
        | Except.ok s => Except.ok (sumToRVal s)
  else Except.error ()

/-- The sampling loop of read_power: fuel is the number of remaining
iterations, i the stream position, M and m the running maximum and minimum,
reads the number of chip reads performed so far.  Every iteration performs
exactly one read; there is no early exit. -/
def burstGo (f : ℕ → ℤ) : ℕ → ℕ → ℤ → ℤ → ℕ → ℤ × ℤ × ℕ
  | 0, _, M, m, reads => (M, m, reads)
  | n + 1, i, M, m, reads =>
    let rd := f i
    burstGo f n (i + 1) (if rd > M then rd else M) (if rd < m then rd else m)
      (reads + 1)

/-- The value read_power returns with raw=True: M - m after a burst of n
samples from the stream f, with M starting at 0 and m at 5000. -/
def read_power_raw (f : ℕ → ℤ) (n : ℕ) : ℤ :=
  let r := burstGo f n 0 0 5000 0
  r.1 - r.2.1

/-- read_power over a sample stream f: flag check, channel check (1..3),
burst of conv.n_samples reads, then raw / electric / power output. -/
def read_power_m (ch : ℕ) (raw electric : Bool) (f : ℕ → ℤ) (vref : ℚ)
    (conv : ConvCur) : Except Unit (ℤ ⊕ ℚ) :=
  if raw && electric then Except.error ()
  else if ch ∈ [1, 2, 3] then
    let r := burstGo f conv.n_samples 0 0 5000 0
    let M := r.1
    let m := r.2.1
    if raw then Except.ok (Sum.inl (M - m))
    else
      let edata := convert_current ((M - m : ℤ) : ℚ) vref conv.ncoil conv.ratio
      if electric then Except.ok (Sum.inr edata)
      else Except.ok (Sum.inr (convert_power edata conv.voltage conv.offset))
  else Except.error ()

/-- Lock usage of read_010 (read_420 and read_resistive are identical):
lockI2C.acquire() always runs first, so the lock is held; adc.set and
get_raw_data may each raise; lockI2C.release() runs only after both chip
transactions succeeded.  The Bool records whether the lock is still held
when the call returns or raises. -/
def read_010_lock (set_res : Except Unit Unit) (read_res : Except Unit ℤ) :
    Except Unit ℤ × Bool :=
  match set_res with
  | Except.error e => (Except.error e, true)
  | Except.ok _ =>
    match read_res with
    | Except.error e => (Except.error e, true)
    | Except.ok d => (Except.ok d, false)

/-- The read_power burst when each chip read may raise: the first failing
read aborts the loop and propagates. -/
def burstLockGo (reads : ℕ → Except Unit ℤ) : ℕ → ℕ → ℤ → ℤ →
    Except Unit (ℤ × ℤ)
  | 0, _, M, m => Except.ok (M, m)
  | n + 1, i, M, m =>
    match reads i with
    | Except.error e => Except.error e
    | Except.ok rd =>
      burstLockGo reads n (i + 1) (if rd > M then rd else M)
        (if rd < m then rd else m)

/-- Lock usage of read_power: acquire, adc_current.set, the burst, release
only when everything succeeded. -/
def read_power_lock (set_res : Except Unit Unit) (reads : ℕ → Except Unit ℤ)
    (n : ℕ) : Except Unit ℤ × Bool :=
  match set_res with
  | Except.error e => (Except.error e, true)
  | Except.ok _ =>
    match burstLockGo reads n 0 0 5000 with
    | Except.error e => (Except.error e, true)
    | Except.ok Mm => (Except.ok (Mm.1 - Mm.2), false)

/-! ### Helper lemmas about the resistive scan loop -/

/-- The scan loop returns none exactly when every adjacent pair is skipped,
i.e. the value is strictly below every entry table[j+1]. -/
lemma resScan_none_iff (value v_min delta : ℚ) :
    ∀ (t : List ℚ) (base : ℕ),
      resScan value v_min delta t base = none ↔
        ∀ j, j + 1 < t.length → value < t.getD (j + 1) 0 := by
  intro t
  induction t with
  | nil => intro base; simp [resScan]
  | cons x1 t1 IH =>
    intro base
    cases t1 with
    | nil => simp [resScan]
    | cons x2 rest =>
      by_cases hv : value < x2
      · rw [show resScan value v_min delta (x1 :: x2 :: rest) base =
            resScan value v_min delta (x2 :: rest) (base + 1) from by
              simp [resScan, hv]]
        rw [IH (base + 1)]
        constructor
        · intro h j hj
          cases j with
          | zero => simpa using hv
          | succ j =>
            have hlt := h j (by simp at hj ⊢; omega)
            simpa [List.getD_cons_succ] using hlt
        · intro h j hj
          have hlt := h (j + 1) (by simp at hj ⊢; omega)
          simpa [List.getD_cons_succ] using hlt
      · constructor
        · intro h
          simp [resScan, hv] at h
        · intro h
          exact absurd (by simpa using h 0 (by simp)) hv

/-- If the first k pairs are skipped and the pair at index k brackets the
value, the scan loop interpolates on the line through the pair at k. -/
lemma resScan_first (value v_min delta : ℚ) :
    ∀ (k : ℕ) (t : List ℚ) (base : ℕ),
      k + 1 < t.length →
      (∀ j, j < k → value < t.getD (j + 1) 0) →
      t.getD (k + 1) 0 ≤ value →
      resScan value v_min delta t base =
        some (lineAt (t.getD k 0) (t.getD (k + 1) 0) (base + k)
          v_min delta value) := by
  intro k
  induction k with
  | zero =>
    intro t base hlen hfirst hbr
    cases t with
    | nil => simp at hlen
    | cons x1 t1 =>
      cases t1 with
      | nil => simp at hlen
      | cons x2 rest =>
        have hx2 : x2 ≤ value := by simpa using hbr
        simp [resScan, not_lt.mpr hx2]
  | succ k IH =>
    intro t base hlen hfirst hbr
    cases t with
    | nil => simp at hlen
    | cons x1 t1 =>
      cases t1 with
      | nil => simp at hlen
      | cons x2 rest =>
        have h0 : value < x2 := by simpa using hfirst 0 (Nat.succ_pos k)
        have hlen2 : k + 1 < (x2 :: rest).length := by simp at hlen ⊢; omega
        have hfirst2 : ∀ j, j < k → value < (x2 :: rest).getD (j + 1) 0 := by
          intro j hj
          simpa [List.getD_cons_succ] using hfirst (j + 1) (by omega)
        have hbr2 : (x2 :: rest).getD (k + 1) 0 ≤ value := by
          simpa [List.getD_cons_succ] using hbr
        have hrec := IH (x2 :: rest) (base + 1) hlen2 hfirst2 hbr2
        have harith : base + 1 + k = base + (k + 1) := by omega
        rw [harith] at hrec
        simpa [resScan, h0, List.getD_cons_succ] using hrec

/-- Unfolding of _scale_resistive on a nonempty table. -/
lemma scale_resistive_eq {α : Type} (value v_min : ℚ) (tbl : List ℚ)
    (delta offset : ℚ) (oor : α) (hne : tbl ≠ []) :
    scale_resistive value v_min tbl delta offset oor =
      if (resNormalize tbl).headD 0 ≤ value then Except.ok (Sum.inl oor)
      else
        match resScan value v_min delta (resNormalize tbl) 0 with
        | some v => Except.ok (Sum.inr v)
        | none => Except.ok (Sum.inl oor) := by
  have hni : tbl.isEmpty = false := by simpa using hne
  simp only [scale_resistive, hni, Bool.false_eq_true, if_false]

/-! ### Claim theorems for the resistive interpolator -/

/-- C1: _scale_resistive normalizes an ascending table by reversing it
(first element smaller than last), and, for a value below the normalized
table head, returns the value of the straight line through
(table[i], v_min + delta*i) and (table[i+1], v_min + delta*(i+1)) at the
first index i whose next entry is at most the value; for the ascending
table [1,2,3,4] with v_min=0 and delta=10 it operates on [4,3,2,1] and
input 3.5 yields exactly 5. -/
theorem C1_resistive_interpolation {α : Type} (oor : α)
    (tbl : List ℚ) (value v_min delta offset : ℚ) (k : ℕ)
    (h2 : 2 ≤ tbl.length)
    (hk : k + 1 < (resNormalize tbl).length)
    (hlt : value < (resNormalize tbl).headD 0)
    (hfirst : ∀ j, j < k → value < (resNormalize tbl).getD (j + 1) 0)
    (hbr : (resNormalize tbl).getD (k + 1) 0 ≤ value) :
    (tbl.headD 0 < tbl.getLastD 0 → resNormalize tbl = tbl.reverse)
    ∧ scale_resistive value v_min tbl delta offset oor =
        Except.ok (Sum.inr (lineAt ((resNormalize tbl).getD k 0)
          ((resNormalize tbl).getD (k + 1) 0) k v_min delta value))
    ∧ resNormalize [(1 : ℚ), 2, 3, 4] = [4, 3, 2, 1]
    ∧ scale_resistive (3.5 : ℚ) 0 [1, 2, 3, 4] 10 0 oor =
        Except.ok (Sum.inr 5) := by
  have hne : tbl ≠ [] := by
    cases tbl with
    | nil => simp at h2
    | cons a l => simp
  refine ⟨fun h => by simp only [resNormalize]; rw [if_pos h], ?_, by decide, ?_⟩
  · have hscan := resScan_first value v_min delta k (resNormalize tbl) 0 hk hfirst hbr
    rw [Nat.zero_add] at hscan
    rw [scale_resistive_eq value v_min tbl delta offset oor hne,
      if_neg (not_le.mpr hlt), hscan]
  · rw [scale_resistive_eq (3.5 : ℚ) 0 [1, 2, 3, 4] 10 0 oor (by simp)]
    have hnorm : resNormalize [(1 : ℚ), 2, 3, 4] = [4, 3, 2, 1] := by decide
    rw [hnorm]
    rw [if_neg (by norm_num)]
    have hsc : resScan (3.5 : ℚ) 0 10 [4, 3, 2, 1] 0 =
        some (lineAt 4 3 0 0 10 3.5) := by
      rw [show resScan (3.5 : ℚ) 0 10 [4, 3, 2, 1] 0 =
          if (3.5 : ℚ) < 3 then resScan (3.5 : ℚ) 0 10 [3, 2, 1] 1
          else some (lineAt 4 3 0 0 10 3.5) from rfl]
      rw [if_neg (by norm_num)]
    rw [hsc]
    have hline : lineAt 4 3 0 0 10 (3.5 : ℚ) = 5 := by norm_num [lineAt]
    rw [hline]

/-- Witness for C1 at the concrete table [1,2,3,4], v_min=0, delta=10,
input 3.5, bracketing index 0. -/
theorem C1_resistive_interpolation_witness :
    (([(1 : ℚ), 2, 3, 4].headD 0 < [(1 : ℚ), 2, 3, 4].getLastD 0 →
        resNormalize [(1 : ℚ), 2, 3, 4] = [(1 : ℚ), 2, 3, 4].reverse))
    ∧ scale_resistive (3.5 : ℚ) 0 [1, 2, 3, 4] 10 0 (0 : ℚ) =
        Except.ok (Sum.inr (lineAt ((resNormalize [(1 : ℚ), 2, 3, 4]).getD 0 0)
          ((resNormalize [(1 : ℚ), 2, 3, 4]).getD 1 0) 0 0 10 (3.5 : ℚ)))
    ∧ resNormalize [(1 : ℚ), 2, 3, 4] = [4, 3, 2, 1]
    ∧ scale_resistive (3.5 : ℚ) 0 [1, 2, 3, 4] 10 0 ((0 : ℚ)) =
        Except.ok (Sum.inr 5) :=
  C1_resistive_interpolation (0 : ℚ) [1, 2, 3, 4] 3.5 0 10 0 0
    (by decide) (by decide) (by norm_num [resNormalize])
    (fun j hj => absurd hj (Nat.not_lt_zero j)) (by norm_num [resNormalize])

/-- C6: on a nonempty table, _scale_resistive returns the configured
out_of_range value verbatim exactly when the value is at or above the head
of the normalized table, or when every adjacent pair is scanned without a
bracket; in every other case the result is an interpolated number. -/
theorem C6_out_of_range_policy {α : Type} (oor : α) (tbl : List ℚ)
    (value v_min delta offset : ℚ) (hne : tbl ≠ []) :
    (scale_resistive value v_min tbl delta offset oor = Except.ok (Sum.inl oor) ↔
      ((resNormalize tbl).headD 0 ≤ value ∨
        ∀ j, j + 1 < (resNormalize tbl).length →
          value < (resNormalize tbl).getD (j + 1) 0))
    ∧ (scale_resistive value v_min tbl delta offset oor = Except.ok (Sum.inl oor)
        ∨ ∃ q : ℚ, scale_resistive value v_min tbl delta offset oor =
            Except.ok (Sum.inr q)) := by
  rw [scale_resistive_eq value v_min tbl delta offset oor hne]
  by_cases hv : (resNormalize tbl).headD 0 ≤ value
  · rw [if_pos hv]
    exact ⟨iff_of_true rfl (Or.inl hv), Or.inl rfl⟩
  · rw [if_neg hv]
    cases hscan : resScan value v_min delta (resNormalize tbl) 0 with
    | none =>
      exact ⟨iff_of_true rfl
        (Or.inr ((resScan_none_iff value v_min delta (resNormalize tbl) 0).mp hscan)),
        Or.inl rfl⟩
    | some q =>
      have hnotall : ¬ ∀ j, j + 1 < (resNormalize tbl).length →
          value < (resNormalize tbl).getD (j + 1) 0 := by
        intro hall
        have hn := (resScan_none_iff value v_min delta (resNormalize tbl) 0).mpr hall
        rw [hscan] at hn
        exact Option.noConfusion hn
      refine ⟨iff_of_false (by simp) ?_, Or.inr ⟨q, rfl⟩⟩
      rintro (h | h)
      · exact hv h
      · exact hnotall h

/-- Witness for C6 at table [1,2,3,4] and value 10 (at or above the
normalized head 4, so the sentinel 42 is returned verbatim). -/
theorem C6_out_of_range_policy_witness :
    (scale_resistive (10 : ℚ) 0 [1, 2, 3, 4] 10 0 (42 : ℚ) =
        Except.ok (Sum.inl 42) ↔
      ((resNormalize [(1 : ℚ), 2, 3, 4]).headD 0 ≤ 10 ∨
        ∀ j, j + 1 < (resNormalize [(1 : ℚ), 2, 3, 4]).length →
          (10 : ℚ) < (resNormalize [(1 : ℚ), 2, 3, 4]).getD (j + 1) 0))
    ∧ (scale_resistive (10 : ℚ) 0 [1, 2, 3, 4] 10 0 (42 : ℚ) =
          Except.ok (Sum.inl 42)
        ∨ ∃ q : ℚ, scale_resistive (10 : ℚ) 0 [1, 2, 3, 4] 10 0 (42 : ℚ) =
            Except.ok (Sum.inr q)) :=
  C6_out_of_range_policy (42 : ℚ) [1, 2, 3, 4] 10 0 10 0 (by decide)

/-- C7: the offset parameter of the resistive pipeline is accepted but
never applied; _scale_resistive and the fully-converted read_resistive give
identical results under any two offsets. -/
theorem C7_resistive_offset_unused {α : Type} (oor : α) (tbl : List ℚ)
    (value v_min delta o1 o2 : ℚ) (ch : ℕ) (data : ℤ) (vref : ℚ)
    (conv : ConvRes α) :
    scale_resistive value v_min tbl delta o1 oor =
      scale_resistive value v_min tbl delta o2 oor
    ∧ read_resistive_m ch false false data vref { conv with offset := o1 } =
        read_resistive_m ch false false data vref { conv with offset := o2 } :=
  ⟨rfl, rfl⟩

/-- C10: set_conversion_resistive stores any reference table verbatim with
no validation; _scale_resistive raises on the empty table (the initial
default configuration, so the full read_resistive pipeline raises there
too) and maps every value of a one-element table to out_of_range. -/
theorem C10_no_table_validation {α : Type} (oor : α)
    (convs : List (ConvRes α)) (ch : ℕ) (v_min delta offset value x : ℚ)
    (tbl : List ℚ) (data : ℤ) (vref : ℚ)
    (hch : ch ∈ [1, 2, 3, 4]) :
    set_conversion_resistive convs ch v_min tbl delta offset oor =
        Except.ok (convs.set (ch - 1) ⟨v_min, tbl, delta, offset, oor⟩)
    ∧ (∀ c ∈ init_adc_resistive_conversion, c.ref_table = [])
    ∧ scale_resistive value v_min [] delta offset oor = Except.error ()
    ∧ scale_resistive value v_min [x] delta offset oor = Except.ok (Sum.inl oor)
    ∧ read_resistive_m ch false false data vref
        (⟨0, [], 0, 0, none⟩ : ConvRes (Option ℚ)) = Except.error () := by
  refine ⟨by simp [set_conversion_resistive, hch], by decide, rfl, ?_, ?_⟩
  · rw [scale_resistive_eq value v_min [x] delta offset oor (by simp)]
    have hnorm : resNormalize [x] = [x] := by simp [resNormalize]
    rw [hnorm]
    have hnone : resScan value v_min delta [x] 0 = none := rfl
    rw [hnone, ite_self]
  · simp [read_resistive_m, hch, scale_resistive]

/-- Witness for C10 on channel 1 with the default (empty-table) resistive
configuration and the one-element table [1]. -/
theorem C10_no_table_validation_witness :
    set_conversion_resistive init_adc_resistive_conversion 1 0 [] 0 0 none =
        Except.ok (init_adc_resistive_conversion.set 0 ⟨0, [], 0, 0, none⟩)
    ∧ (∀ c ∈ init_adc_resistive_conversion, c.ref_table = [])
    ∧ scale_resistive (0 : ℚ) 0 [] 0 0 (none : Option ℚ) = Except.error ()
    ∧ scale_resistive (0 : ℚ) 0 [1] 0 0 (none : Option ℚ) =
        Except.ok (Sum.inl none)
    ∧ read_resistive_m 1 false false 0 1
        (⟨0, [], 0, 0, none⟩ : ConvRes (Option ℚ)) = Except.error () :=
  C10_no_table_validation none init_adc_resistive_conversion 1 0 0 0 0 1 [] 0 1
    (by decide)

/-! ### Claim theorems for the linear 0-10V / 4-20mA pipeline -/

/-- C2: the electric value of read_010 is (raw/2047)*vref*5 and of read_420
additionally /124*1000; the output stage returns under_x verbatim below
x_min, over_x verbatim above x_max, and otherwise the linear interpolation
plus offset, with (x_min, x_max) = (0, 10) for read_010 and (4, 20) for
read_420; and with y_min=0, y_max=100, offset=0 the electric value 5 maps
to 50, -1 to under_x and 11 to over_x. -/
theorem C2_linear_pipeline {α : Type} (u o : α)
    (rawc vref x x_min x_max y_min y_max offset : ℚ)
    (data : ℤ) (conv : Conv010 α) (ch : ℕ) (hch : ch ∈ [1, 2, 3, 4]) :
    convert_010 rawc vref = rawc / 2047 * vref * 5
    ∧ convert_420 rawc vref = rawc / 2047 * vref * 5 / 124 * 1000
    ∧ read_010_m ch false true data vref conv =
        Except.ok (RVal.num ((data : ℚ) / 2047 * vref * 5))
    ∧ read_420_m ch false true data vref conv =
        Except.ok (RVal.num ((data : ℚ) / 2047 * vref * 5 / 124 * 1000))
    ∧ (x < x_min → scale_010_420 x x_min x_max y_min y_max offset u o = Sum.inl u)
    ∧ (x_min ≤ x_max → x_max < x →
        scale_010_420 x x_min x_max y_min y_max offset u o = Sum.inl o)
    ∧ (x_min ≤ x → x ≤ x_max →
        scale_010_420 x x_min x_max y_min y_max offset u o =
          Sum.inr (y_min + (x - x_min) * (y_max - y_min) / (x_max - x_min) + offset))
    ∧ read_010_m ch false false data vref conv =
        Except.ok (sumToRVal (scale_010_420 (convert_010 (data : ℚ) vref) 0 10
          conv.y_min conv.y_max conv.offset conv.under_x conv.over_x))
    ∧ read_420_m ch false false data vref conv =
        Except.ok (sumToRVal (scale_010_420 (convert_420 (data : ℚ) vref) 4 20
          conv.y_min conv.y_max conv.offset conv.under_x conv.over_x))
    ∧ scale_010_420 (5 : ℚ) 0 10 0 100 0 u o = Sum.inr 50
    ∧ scale_010_420 (-1 : ℚ) 0 10 0 100 0 u o = Sum.inl u
    ∧ scale_010_420 (11 : ℚ) 0 10 0 100 0 u o = Sum.inl o := by
  refine ⟨rfl, rfl, by simp [read_010_m, convert_010, hch],
    by simp [read_420_m, convert_420, hch], ?_, ?_, ?_,
    by simp [read_010_m, hch], by simp [read_420_m, hch], ?_, ?_, ?_⟩
  · intro h
    simp [scale_010_420, h]
  · intro h1 h2
    have hnlt : ¬ x < x_min := not_lt.mpr (le_trans h1 h2.le)
    simp [scale_010_420, hnlt, h2]
  · intro h1 h2
    simp [scale_010_420, not_lt.mpr h1, not_lt.mpr h2]
  · rw [show scale_010_420 (5 : ℚ) 0 10 0 100 0 u o =
        Sum.inr (0 + (5 - 0) * (100 - 0) / (10 - 0) + 0) from by
      simp [scale_010_420]
      norm_num]
    norm_num
  · simp [scale_010_420]
  · rw [show scale_010_420 (11 : ℚ) 0 10 0 100 0 u o = Sum.inl o from by
      simp [scale_010_420]
      norm_num]

/-- Witness for C2 on channel 1 with the default y_min=0, y_max=100,
offset=0, under_x=0, over_x=100 conversion record. -/
theorem C2_linear_pipeline_witness :
    convert_010 1 2.048 = 1 / 2047 * 2.048 * 5
    ∧ convert_420 1 2.048 = 1 / 2047 * 2.048 * 5 / 124 * 1000
    ∧ read_010_m 1 false true 7 2.048 (⟨0, 100, 0, (0 : ℚ), 100⟩ : Conv010 ℚ) =
        Except.ok (RVal.num (((7 : ℤ) : ℚ) / 2047 * 2.048 * 5))
    ∧ read_420_m 1 false true 7 2.048 (⟨0, 100, 0, (0 : ℚ), 100⟩ : Conv010 ℚ) =
        Except.ok (RVal.num (((7 : ℤ) : ℚ) / 2047 * 2.048 * 5 / 124 * 1000))
    ∧ ((5 : ℚ) < 0 → scale_010_420 (5 : ℚ) 0 10 0 100 0 (0 : ℚ) 100 = Sum.inl 0)
    ∧ ((0 : ℚ) ≤ 10 → (10 : ℚ) < 5 →
        scale_010_420 (5 : ℚ) 0 10 0 100 0 (0 : ℚ) 100 = Sum.inl 100)
    ∧ ((0 : ℚ) ≤ 5 → (5 : ℚ) ≤ 10 →
        scale_010_420 (5 : ℚ) 0 10 0 100 0 (0 : ℚ) 100 =
          Sum.inr (0 + (5 - 0) * (100 - 0) / (10 - 0) + 0))
    ∧ read_010_m 1 false false 7 2.048 (⟨0, 100, 0, (0 : ℚ), 100⟩ : Conv010 ℚ) =
        Except.ok (sumToRVal (scale_010_420 (convert_010 ((7 : ℤ) : ℚ) 2.048) 0 10
          (⟨0, 100, 0, (0 : ℚ), 100⟩ : Conv010 ℚ).y_min
          (⟨0, 100, 0, (0 : ℚ), 100⟩ : Conv010 ℚ).y_max
          (⟨0, 100, 0, (0 : ℚ), 100⟩ : Conv010 ℚ).offset
          (⟨0, 100, 0, (0 : ℚ), 100⟩ : Conv010 ℚ).under_x
          (⟨0, 100, 0, (0 : ℚ), 100⟩ : Conv010 ℚ).over_x))
    ∧ read_420_m 1 false false 7 2.048 (⟨0, 100, 0, (0 : ℚ), 100⟩ : Conv010 ℚ) =
        Except.ok (sumToRVal (scale_010_420 (convert_420 ((7 : ℤ) : ℚ) 2.048) 4 20
          (⟨0, 100, 0, (0 : ℚ), 100⟩ : Conv010 ℚ).y_min
          (⟨0, 100, 0, (0 : ℚ), 100⟩ : Conv010 ℚ).y_max
          (⟨0, 100, 0, (0 : ℚ), 100⟩ : Conv010 ℚ).offset
          (⟨0, 100, 0, (0 : ℚ), 100⟩ : Conv010 ℚ).under_x
          (⟨0, 100, 0, (0 : ℚ), 100⟩ : Conv010 ℚ).over_x))
    ∧ scale_010_420 (5 : ℚ) 0 10 0 100 0 (0 : ℚ) 100 = Sum.inr 50
    ∧ scale_010_420 (-1 : ℚ) 0 10 0 100 0 (0 : ℚ) 100 = Sum.inl 0
    ∧ scale_010_420 (11 : ℚ) 0 10 0 100 0 (0 : ℚ) 100 = Sum.inl 100 :=
  C2_linear_pipeline (0 : ℚ) 100 1 2.048 5 0 10 0 100 0 7
    (⟨0, 100, 0, (0 : ℚ), 100⟩ : Conv010 ℚ) 1 (by decide)

/-! ### The sampling burst of read_power -/

/-- The update of the running maximum in the burst loop is max. -/
lemma ite_gt_eq_max (M rd : ℤ) : (if rd > M then rd else M) = max M rd := by
  rcases le_or_lt rd M with h | h
  · rw [if_neg (not_lt.mpr h), max_eq_left h]
  · rw [if_pos h, max_eq_right h.le]

/-- The update of the running minimum in the burst loop is min. -/
lemma ite_lt_eq_min (m rd : ℤ) : (if rd < m then rd else m) = min m rd := by
  rcases le_or_lt m rd with h | h
  · rw [if_neg (not_lt.mpr h), min_eq_left h]
  · rw [if_pos h, min_eq_right h.le]

/-- The burst loop folds max and min over the n samples read from the
stream and performs exactly one read per iteration. -/
lemma burstGo_eq_foldl (f : ℕ → ℤ) :
    ∀ (n i : ℕ) (M m : ℤ) (r : ℕ),
      burstGo f n i M m r =
        (((List.range' i n).map f).foldl max M,
         ((List.range' i n).map f).foldl min m, r + n) := by
  intro n
  induction n with
  | zero => intro i M m r; simp [burstGo]
  | succ n IH =>
    intro i M m r
    have hstep : burstGo f (n + 1) i M m r =
        burstGo f n (i + 1) (max M (f i)) (min m (f i)) (r + 1) := by
      simp only [burstGo, ite_gt_eq_max, ite_lt_eq_min]
    rw [hstep, IH, List.range'_succ]
    simp only [List.map_cons, List.foldl_cons, Prod.mk.injEq]
    refine ⟨trivial, trivial, by omega⟩

/-- C3: read_power performs exactly n_samples chip reads with no early
exit, and from the burst output pp computes
i_secondary = (pp/2)*vref/2048/20, i_primary = ratio*i_secondary/ncoil
(returned under electric_value), and P = i_primary*voltage*0.7071 + offset
when neither flag is set. -/
theorem C3_power_pipeline (f : ℕ → ℤ) (n : ℕ) (ch : ℕ) (vref : ℚ)
    (conv : ConvCur) (hch : ch ∈ [1, 2, 3]) :
    (burstGo f n 0 0 5000 0).2.2 = n
    ∧ read_power_m ch true false f vref conv =
        Except.ok (Sum.inl (read_power_raw f conv.n_samples))
    ∧ read_power_m ch false true f vref conv =
        Except.ok (Sum.inr (conv.ratio * ((read_power_raw f conv.n_samples : ℚ)
          / 2 * vref / 2048 / 20) / conv.ncoil))
    ∧ read_power_m ch false false f vref conv =
        Except.ok (Sum.inr (conv.ratio * ((read_power_raw f conv.n_samples : ℚ)
          / 2 * vref / 2048 / 20) / conv.ncoil * conv.voltage * 0.7071
          + conv.offset)) := by
  refine ⟨?_, by simp [read_power_m, read_power_raw, hch],
    by simp [read_power_m, read_power_raw, convert_current, hch],
    by simp [read_power_m, read_power_raw, convert_current, convert_power, hch]⟩
  rw [burstGo_eq_foldl]
  simp

/-- Witness for C3 with a two-sample burst on channel 1. -/
theorem C3_power_pipeline_witness :
    (burstGo (fun i => (i : ℤ)) 2 0 0 5000 0).2.2 = 2
    ∧ read_power_m 1 true false (fun i => (i : ℤ)) 2.048 (⟨2, 1, 2000, 220, 0⟩ : ConvCur) =
        Except.ok (Sum.inl (read_power_raw (fun i => (i : ℤ))
          (⟨2, 1, 2000, 220, 0⟩ : ConvCur).n_samples))
    ∧ read_power_m 1 false true (fun i => (i : ℤ)) 2.048 (⟨2, 1, 2000, 220, 0⟩ : ConvCur) =
        Except.ok (Sum.inr ((⟨2, 1, 2000, 220, 0⟩ : ConvCur).ratio *
          ((read_power_raw (fun i => (i : ℤ))
            (⟨2, 1, 2000, 220, 0⟩ : ConvCur).n_samples : ℚ)
          / 2 * 2.048 / 2048 / 20) / (⟨2, 1, 2000, 220, 0⟩ : ConvCur).ncoil))
    ∧ read_power_m 1 false false (fun i => (i : ℤ)) 2.048 (⟨2, 1, 2000, 220, 0⟩ : ConvCur) =
        Except.ok (Sum.inr ((⟨2, 1, 2000, 220, 0⟩ : ConvCur).ratio *
          ((read_power_raw (fun i => (i : ℤ))
            (⟨2, 1, 2000, 220, 0⟩ : ConvCur).n_samples : ℚ)
          / 2 * 2.048 / 2048 / 20) / (⟨2, 1, 2000, 220, 0⟩ : ConvCur).ncoil *
          (⟨2, 1, 2000, 220, 0⟩ : ConvCur).voltage * 0.7071
          + (⟨2, 1, 2000, 220, 0⟩ : ConvCur).offset)) :=
  C3_power_pipeline (fun i => (i : ℤ)) 2 1 2.048 (⟨2, 1, 2000, 220, 0⟩ : ConvCur)
    (by decide)

/-- C4: with raw=True each read operation returns exactly the acquisition
output, independent of every stored conversion parameter; for read_power
the acquisition output is determined by the sample stream and the burst
length, so two calls observing the same acquired samples agree for any two
conversion settings. -/
theorem C4_raw_mode_independent {α β : Type} (data : ℤ) (vref : ℚ)
    (c1 c2 : Conv010 α) (r1 r2 : ConvRes β) (p1 p2 : ConvCur)
    (f : ℕ → ℤ) (ch chp : ℕ)
    (hch : ch ∈ [1, 2, 3, 4]) (hchp : chp ∈ [1, 2, 3])
    (hsame : p1.n_samples = p2.n_samples) :
    read_010_m ch true false data vref c1 = Except.ok (RVal.rawv data)
    ∧ read_010_m ch true false data vref c1 = read_010_m ch true false data vref c2
    ∧ read_420_m ch true false data vref c1 = Except.ok (RVal.rawv data)
    ∧ read_420_m ch true false data vref c1 = read_420_m ch true false data vref c2
    ∧ read_resistive_m ch true false data vref r1 = Except.ok (RVal.rawv data)
    ∧ read_resistive_m ch true false data vref r1 =
        read_resistive_m ch true false data vref r2
    ∧ read_power_m chp true false f vref p1 =
        Except.ok (Sum.inl (read_power_raw f p1.n_samples))
    ∧ read_power_m chp true false f vref p1 =
        read_power_m chp true false f vref p2 := by
  refine ⟨by simp [read_010_m, hch], by simp [read_010_m, hch],
    by simp [read_420_m, hch], by simp [read_420_m, hch],
    by simp [read_resistive_m, hch], by simp [read_resistive_m, hch],
    by simp [read_power_m, read_power_raw, hchp],
    by simp [read_power_m, hchp, hsame]⟩

/-- Witness for C4: two different conversion settings on the same acquired
data give the same raw result. -/
theorem C4_raw_mode_independent_witness :
    read_010_m 1 true false 7 2.048 (⟨0, 100, 0, (0 : ℚ), 100⟩ : Conv010 ℚ) =
        Except.ok (RVal.rawv 7)
    ∧ read_010_m 1 true false 7 2.048 (⟨0, 100, 0, (0 : ℚ), 100⟩ : Conv010 ℚ) =
        read_010_m 1 true false 7 2.048 (⟨5, 50, 3, (1 : ℚ), 2⟩ : Conv010 ℚ)
    ∧ read_420_m 1 true false 7 2.048 (⟨0, 100, 0, (0 : ℚ), 100⟩ : Conv010 ℚ) =
        Except.ok (RVal.rawv 7)
    ∧ read_420_m 1 true false 7 2.048 (⟨0, 100, 0, (0 : ℚ), 100⟩ : Conv010 ℚ) =
        read_420_m 1 true false 7 2.048 (⟨5, 50, 3, (1 : ℚ), 2⟩ : Conv010 ℚ)
    ∧ read_resistive_m 1 true false 7 2.048
        (⟨0, [], 0, 0, (none : Option ℚ)⟩ : ConvRes (Option ℚ)) =
        Except.ok (RVal.rawv 7)
    ∧ read_resistive_m 1 true false 7 2.048
        (⟨0, [], 0, 0, (none : Option ℚ)⟩ : ConvRes (Option ℚ)) =
        read_resistive_m 1 true false 7 2.048
          (⟨1, [1, 2], 3, 4, (some 5 : Option ℚ)⟩ : ConvRes (Option ℚ))
    ∧ read_power_m 1 true false (fun i => (i : ℤ)) 2.048
        (⟨2, 1, 2000, 220, 0⟩ : ConvCur) =
        Except.ok (Sum.inl (read_power_raw (fun i => (i : ℤ))
          (⟨2, 1, 2000, 220, 0⟩ : ConvCur).n_samples))
    ∧ read_power_m 1 true false (fun i => (i : ℤ)) 2.048
        (⟨2, 1, 2000, 220, 0⟩ : ConvCur) =
        read_power_m 1 true false (fun i => (i : ℤ)) 2.048
          (⟨2, 9, 17, 330, 5⟩ : ConvCur) :=
  C4_raw_mode_independent 7 2.048 (⟨0, 100, 0, (0 : ℚ), 100⟩ : Conv010 ℚ)
    (⟨5, 50, 3, (1 : ℚ), 2⟩ : Conv010 ℚ)
    (⟨0, [], 0, 0, (none : Option ℚ)⟩ : ConvRes (Option ℚ))
    (⟨1, [1, 2], 3, 4, (some 5 : Option ℚ)⟩ : ConvRes (Option ℚ))
    (⟨2, 1, 2000, 220, 0⟩ : ConvCur) (⟨2, 9, 17, 330, 5⟩ : ConvCur)
    (fun i => (i : ℤ)) 1 1 (by decide) (by decide) rfl

/-! ### Lock discipline of the read operations -/

/-- C5 counterexample: when the get_raw_data transaction of read_010
raises, the call propagates the exception and the I2C lock is still held
on exit, refuting the claim that every exit path releases the lock. -/
theorem C5_lock_counterexample :
    (read_010_lock (Except.ok ()) (Except.error ())).1 = Except.error ()
    ∧ (read_010_lock (Except.ok ()) (Except.error ())).2 = true :=
  ⟨rfl, rfl⟩

/-- C5 amended: every ADC read acquires the lock before its chip
transactions and releases it on the normal return path, but when a chip
transaction raises, the exception propagates with the lock still held: the
lock is free on exit exactly when every transaction succeeded. -/
theorem C5_lock_release_amended (set_res : Except Unit Unit)
    (read_res : Except Unit ℤ) (reads : ℕ → Except Unit ℤ) (n : ℕ) :
    ((read_010_lock set_res read_res).2 = false ↔
      set_res = Except.ok () ∧ ∃ d, read_res = Except.ok d)
    ∧ (∀ d, read_010_lock (Except.ok ()) (Except.ok d) = (Except.ok d, false))
    ∧ ((read_power_lock set_res reads n).2 = false ↔
      set_res = Except.ok () ∧
        ∃ Mm, burstLockGo reads n 0 0 5000 = Except.ok Mm) := by
  refine ⟨?_, fun d => rfl, ?_⟩
  · cases set_res with
    | error e => simp [read_010_lock]
    | ok u =>
      cases read_res with
      | error e => simp [read_010_lock]
      | ok d => simp [read_010_lock]
  · cases set_res with
    | error e => simp [read_power_lock]
    | ok u =>
      cases hb : burstLockGo reads n 0 0 5000 with
      | error e => simp [read_power_lock, hb]
      | ok Mm => simp [read_power_lock, hb]

/-! ### Channel isolation of the configuration stores -/

/-- Writing channel ch leaves the entry of every other channel unchanged. -/
lemma set_other_channel {γ : Type} (l : List γ) (a : γ) (ch c2 : ℕ)
    (hch : 1 ≤ ch) (hc2 : 1 ≤ c2) (hne : c2 ≠ ch) :
    (l.set (ch - 1) a)[c2 - 1]? = l[c2 - 1]? :=
  List.getElem?_set_ne (by omega)

/-- C8: every successful configuration or conversion-parameter write on
channel ch mutates only the entry of channel ch; the stored record of
every other valid channel is unchanged. -/
theorem C8_channel_isolation {α : Type} :
    (∀ (cfgs cfgs2 : List AdcCfg) (ch pga sps c2 : ℕ),
      config_adc_010_420 cfgs ch pga sps = Except.ok cfgs2 →
      c2 ∈ [1, 2, 3, 4] → c2 ≠ ch → cfgs2[c2 - 1]? = cfgs[c2 - 1]?)
    ∧ (∀ (cfgs cfgs2 : List AdcCfg) (ch pga sps c2 : ℕ),
      config_adc_resistive cfgs ch pga sps = Except.ok cfgs2 →
      c2 ∈ [1, 2, 3, 4] → c2 ≠ ch → cfgs2[c2 - 1]? = cfgs[c2 - 1]?)
    ∧ (∀ (cfgs cfgs2 : List AdcCfg) (ch pga sps c2 : ℕ),
      config_adc_current cfgs ch pga sps = Except.ok cfgs2 →
      c2 ∈ [1, 2, 3] → c2 ≠ ch → cfgs2[c2 - 1]? = cfgs[c2 - 1]?)
    ∧ (∀ (convs convs2 : List (Conv010 α)) (ch c2 : ℕ)
        (y_min y_max offset : ℚ) (u o : α),
      set_conversion_010_420 convs ch y_min y_max offset u o = Except.ok convs2 →
      c2 ∈ [1, 2, 3, 4] → c2 ≠ ch → convs2[c2 - 1]? = convs[c2 - 1]?)
    ∧ (∀ (convs convs2 : List (ConvRes α)) (ch c2 : ℕ)
        (v_min : ℚ) (tbl : List ℚ) (delta offset : ℚ) (oor : α),
      set_conversion_resistive convs ch v_min tbl delta offset oor =
          Except.ok convs2 →
      c2 ∈ [1, 2, 3, 4] → c2 ≠ ch → convs2[c2 - 1]? = convs[c2 - 1]?)
    ∧ (∀ (convs convs2 : List ConvCur) (ch c2 n_samples : ℕ)
        (ncoil ratio voltage offset : ℚ),
      set_conversion_current convs ch n_samples ncoil ratio voltage offset =
          Except.ok convs2 →
      c2 ∈ [1, 2, 3] → c2 ≠ ch → convs2[c2 - 1]? = convs[c2 - 1]?) := by
  refine ⟨?_, ?_, ?_, ?_, ?_, ?_⟩
  · intro cfgs cfgs2 ch pga sps c2 hok hc2 hne
    by_cases hch : ch ∈ [1, 2, 3, 4]
    · rw [config_adc_010_420, if_pos hch] at hok
      cases hcc : check_adc_config pga sps with
      | error e => rw [hcc] at hok; exact Except.noConfusion hok
      | ok u =>
        rw [hcc] at hok
        cases hok
        refine set_other_channel cfgs _ ch c2 ?_ ?_ hne
        · simp at hch; omega
        · simp at hc2; omega
    · rw [config_adc_010_420, if_neg hch] at hok
      exact Except.noConfusion hok
  · intro cfgs cfgs2 ch pga sps c2 hok hc2 hne
    by_cases hch : ch ∈ [1, 2, 3, 4]
    · rw [config_adc_resistive, if_pos hch] at hok
      cases hcc : check_adc_config pga sps with
      | error e => rw [hcc] at hok; exact Except.noConfusion hok
      | ok u =>
        rw [hcc] at hok
        cases hok
        refine set_other_channel cfgs _ ch c2 ?_ ?_ hne
        · simp at hch; omega
        · simp at hc2; omega
    · rw [config_adc_resistive, if_neg hch] at hok
      exact Except.noConfusion hok
  · intro cfgs cfgs2 ch pga sps c2 hok hc2 hne
    by_cases hch : ch ∈ [1, 2, 3]
    · rw [config_adc_current, if_pos hch] at hok
      cases hcc : check_adc_config pga sps with
      | error e => rw [hcc] at hok; exact Except.noConfusion hok
      | ok u =>
        rw [hcc] at hok
        cases hok
        refine set_other_channel cfgs _ ch c2 ?_ ?_ hne
        · simp at hch; omega
        · simp at hc2; omega
    · rw [config_adc_current, if_neg hch] at hok
      exact Except.noConfusion hok
  · intro convs convs2 ch c2 y_min y_max offset u o hok hc2 hne
    by_cases hch : ch ∈ [1, 2, 3, 4]
    · rw [set_conversion_010_420, if_pos hch] at hok
      cases hok
      refine set_other_channel convs _ ch c2 ?_ ?_ hne
      · simp at hch; omega
      · simp at hc2; omega
    · rw [set_conversion_010_420, if_neg hch] at hok
      exact Except.noConfusion hok
  · intro convs convs2 ch c2 v_min tbl delta offset oor hok hc2 hne
    by_cases hch : ch ∈ [1, 2, 3, 4]
    · rw [set_conversion_resistive, if_pos hch] at hok
      cases hok
      refine set_other_channel convs _ ch c2 ?_ ?_ hne
      · simp at hch; omega
      · simp at hc2; omega
    · rw [set_conversion_resistive, if_neg hch] at hok
      exact Except.noConfusion hok
  · intro convs convs2 ch c2 n_samples ncoil ratio voltage offset hok hc2 hne
    by_cases hch : ch ∈ [1, 2, 3]
    · rw [set_conversion_current, if_pos hch] at hok
      cases hok
      refine set_other_channel convs _ ch c2 ?_ ?_ hne
      · simp at hch; omega
      · simp at hc2; omega
    · rw [set_conversion_current, if_neg hch] at hok
      exact Except.noConfusion hok

/-- Witness for C8: reconfiguring the gain of channel 2 leaves the stored
record of channel 1 (and in particular its reference voltage) unchanged. -/
theorem C8_channel_isolation_witness :
    (([⟨2, 7, 2.048⟩, ⟨2, 7, 2.048⟩, ⟨2, 7, 2.048⟩, ⟨2, 7, 2.048⟩] :
        List AdcCfg).set 1 ⟨0, 0, VREF_ADS1015.getD 0 0⟩)[0]? =
      ([⟨2, 7, 2.048⟩, ⟨2, 7, 2.048⟩, ⟨2, 7, 2.048⟩, ⟨2, 7, 2.048⟩] :
        List AdcCfg)[0]? :=
  (@C8_channel_isolation ℚ).1
    [⟨2, 7, 2.048⟩, ⟨2, 7, 2.048⟩, ⟨2, 7, 2.048⟩, ⟨2, 7, 2.048⟩]
    (([⟨2, 7, 2.048⟩, ⟨2, 7, 2.048⟩, ⟨2, 7, 2.048⟩, ⟨2, 7, 2.048⟩] :
        List AdcCfg).set 1 ⟨0, 0, VREF_ADS1015.getD 0 0⟩)
    2 0 0 1 rfl (by decide) (by decide)

/-! ### The clamped peak-to-peak of read_power -/

/-- Folding max over a list with a combined seed splits off the left
component. -/
lemma foldl_max_max (a b : ℤ) (l : List ℤ) :
    l.foldl max (max a b) = max a (l.foldl max b) := by
  induction l generalizing a b with
  | nil => rfl
  | cons c l IH =>
    simp only [List.foldl_cons]
    rw [max_assoc]
    exact IH a (max b c)

/-- Folding min over a list with a combined seed splits off the left
component. -/
lemma foldl_min_min (a b : ℤ) (l : List ℤ) :
    l.foldl min (min a b) = min a (l.foldl min b) := by
  induction l generalizing a b with
  | nil => rfl
  | cons c l IH =>
    simp only [List.foldl_cons]
    rw [min_assoc]
    exact IH a (min b c)

/-- The seed is a lower bound of a max fold. -/
lemma le_foldl_max (a : ℤ) (l : List ℤ) : a ≤ l.foldl max a := by
  induction l generalizing a with
  | nil => exact le_refl a
  | cons b l IH =>
    simp only [List.foldl_cons]
    exact le_trans (le_max_left a b) (IH (max a b))

/-- The seed is an upper bound of a min fold. -/
lemma foldl_min_le (a : ℤ) (l : List ℤ) : l.foldl min a ≤ a := by
  induction l generalizing a with
  | nil => exact le_refl a
  | cons b l IH =>
    simp only [List.foldl_cons]
    exact le_trans (IH (min a b)) (min_le_left a b)

/-- C9: the raw output of a nonempty read_power burst equals
max(0, maximum of the samples) - min(5000, minimum of the samples) because
the running maximum starts at 0 and the running minimum at 5000; it equals
the true peak-to-peak exactly when the maximum is at least 0 and the
minimum is at most 5000; a burst of identical samples -3 yields 3 although
its true peak-to-peak is 0. -/
theorem C9_power_raw_clamped (f : ℕ → ℤ) (n : ℕ) (hn : 0 < n) :
    read_power_raw f n =
      max 0 (((List.range n).map f).foldl max (f 0))
        - min 5000 (((List.range n).map f).foldl min (f 0))
    ∧ (read_power_raw f n =
        ((List.range n).map f).foldl max (f 0)
          - ((List.range n).map f).foldl min (f 0) ↔
        (0 ≤ ((List.range n).map f).foldl max (f 0)
          ∧ ((List.range n).map f).foldl min (f 0) ≤ 5000))
    ∧ read_power_raw (fun _ => (-3 : ℤ)) 2 = 3
    ∧ ((List.range 2).map (fun _ => (-3 : ℤ))).foldl max ((-3 : ℤ))
        - ((List.range 2).map (fun _ => (-3 : ℤ))).foldl min ((-3 : ℤ)) = 0 := by
  obtain ⟨k, rfl⟩ : ∃ k, n = k + 1 := ⟨n - 1, by omega⟩
  have hsplit : (List.range (k + 1)).map f = f 0 :: (List.range' 1 k).map f := by
    rw [List.range_eq_range', List.range'_succ]
    simp
  have hA : ((List.range (k + 1)).map f).foldl max (f 0)
      = ((List.range' 1 k).map f).foldl max (f 0) := by
    rw [hsplit, List.foldl_cons, max_self]
  have hB : ((List.range (k + 1)).map f).foldl min (f 0)
      = ((List.range' 1 k).map f).foldl min (f 0) := by
    rw [hsplit, List.foldl_cons, min_self]
  have hraw : read_power_raw f (k + 1)
      = max 0 (((List.range' 1 k).map f).foldl max (f 0))
        - min 5000 (((List.range' 1 k).map f).foldl min (f 0)) := by
    have hb := burstGo_eq_foldl f (k + 1) 0 0 5000 0
    have h0 : List.range' 0 (k + 1) = 0 :: List.range' 1 k := by
      rw [List.range'_succ]
    rw [h0] at hb
    simp only [read_power_raw, hb, List.map_cons, List.foldl_cons]
    rw [foldl_max_max, foldl_min_min]
  have hf0A : f 0 ≤ ((List.range' 1 k).map f).foldl max (f 0) := le_foldl_max _ _
  have hBf0 : ((List.range' 1 k).map f).foldl min (f 0) ≤ f 0 := foldl_min_le _ _
  refine ⟨by rw [hraw, hA, hB], ?_, rfl, rfl⟩
  rw [hraw, hA, hB]
  rcases le_total 0 (((List.range' 1 k).map f).foldl max (f 0)) with h0A | h0A <;>
    rcases le_total (((List.range' 1 k).map f).foldl min (f 0)) 5000 with hB5 | hB5
  · rw [max_eq_right h0A, min_eq_right hB5]
    omega
  · rw [max_eq_right h0A, min_eq_left hB5]
    omega
  · rw [max_eq_left h0A, min_eq_right hB5]
    omega
  · rw [max_eq_left h0A, min_eq_left hB5]
    omega

/-- Witness for C9 at the two-sample burst of identical samples -3. -/
theorem C9_power_raw_clamped_witness :
    read_power_raw (fun _ => (-3 : ℤ)) 2 =
      max 0 (((List.range 2).map (fun _ => (-3 : ℤ))).foldl max ((-3 : ℤ)))
        - min 5000 (((List.range 2).map (fun _ => (-3 : ℤ))).foldl min ((-3 : ℤ)))
    ∧ (read_power_raw (fun _ => (-3 : ℤ)) 2 =
        ((List.range 2).map (fun _ => (-3 : ℤ))).foldl max ((-3 : ℤ))
          - ((List.range 2).map (fun _ => (-3 : ℤ))).foldl min ((-3 : ℤ)) ↔
        (0 ≤ ((List.range 2).map (fun _ => (-3 : ℤ))).foldl max ((-3 : ℤ))
          ∧ ((List.range 2).map (fun _ => (-3 : ℤ))).foldl min ((-3 : ℤ)) ≤ 5000))
    ∧ read_power_raw (fun _ => (-3 : ℤ)) 2 = 3
    ∧ ((List.range 2).map (fun _ => (-3 : ℤ))).foldl max ((-3 : ℤ))
        - ((List.range 2).map (fun _ => (-3 : ℤ))).foldl min ((-3 : ℤ)) = 0 :=
  C9_power_raw_clamped (fun _ => (-3 : ℤ)) 2 (by decide)

end FourZeroBox
